import Mathlib

/-!
Verification of the batch-enqueueing core of `uadnan/cortex`
(`pkg/operator/resources/batchapi`): the SQS batch accumulator
(`batch_enqueuer.go`), the streaming JSON document splitter and the three
ingestion orchestrators (`batch.go`, provided unnamed), and the enqueue
driver.

Shallow embedding conventions:
- Go byte strings (message payloads, file contents) are `List Nat`
  (byte values); `len` is `List.length`.
- The Go `map[string]int` field `messageIDToListIndex` is
  `Option (List (String × Nat))`: `none` models a nil map (its Go zero
  value).  Reading a nil map yields the zero value `0`; assigning into a
  nil map is a runtime panic, modelled by the `Status.panicked` outcome.
- The external SQS backend is an oracle: a function from the global
  send-attempt counter to the `SendMessageBatch` response.  Each physical
  send attempt is logged in `World.sends`, so theorems can speak about
  every physical send the accumulator ever issues.
- Fallible Go functions return `Option GoError` / a `Status`; a Go panic
  aborts the modelled run.
-/

namespace Cortex

/-- `_messageSizeLimit = 256 * 1024` (batch_enqueuer.go line 29). -/
def messageSizeLimit : Nat := 256 * 1024

/-- `_maxMessagesPerBatch = 10` (batch_enqueuer.go line 30). -/
def maxMessagesPerBatch : Nat := 10

/-- One entry of an SQS `SendMessageBatch` call, as built by `AddToBatch`
(batch_enqueuer.go lines 48-53): the deduplication id and the group id are
both set to the message id. -/
structure SendMessageBatchRequestEntry where
  Id : String
  MessageBody : List Nat
  MessageDeduplicationId : String
  MessageGroupId : String
  deriving Repr, DecidableEq

/-- One entry of the `Failed` list of a `SendMessageBatch` output
(`sqs.BatchResultErrorEntry`: the failed entry's id and the backend's
failure reason). -/
structure BatchResultErrorEntry where
  Id : String
  Message : String
  deriving Repr, DecidableEq

/-- The observable outcome of one physical `SendMessageBatch` call:
whether the call itself returned a non-nil error (`err`), and the
output's `Failed` list. -/
structure SendMessageBatchResult where
  err : Bool
  Failed : List BatchResultErrorEntry
  deriving Repr, DecidableEq

/-- The error values produced by the embedded code, by construction site:
`messageExceedsMaxSize` is `ErrorMessageExceedsMaxSize`;
`failedToEnqueueMessages reason label` is
`errors.Wrap(ErrorFailedToEnqueueMessages(reason), "batch <label>")`;
`transport` is `errors.WithStack(err)` around a transport-level failure;
`flushFailed inner retries` is
`errors.Wrap(inner, "failed after retrying <retries> times")`;
`external tag` stands for an opaque collaborator error (S3, liveness,
marshalling) carried through unchanged. -/
inductive GoError where
  | messageExceedsMaxSize (size limit : Nat)
  | failedToEnqueueMessages (reason : String) (batchLabel : Nat)
  | transport
  | flushFailed (inner : GoError) (retries : Nat)
  | external (tag : String)
  deriving Repr, DecidableEq

/-- `SQSBatchUploader` (batch_enqueuer.go lines 33-41).  The `Client`
pointer is represented by the oracle in `World`; `Retries = none` models a
nil `*int` (default 3). -/
structure SQSBatchUploader where
  QueueURL : String
  Retries : Option Nat
  messageList : List SendMessageBatchRequestEntry
  messageIDToListIndex : Option (List (String × Nat))
  totalBytes : Nat
  TotalBatches : Nat
  deriving Repr, DecidableEq

/-- The uploader exactly as the three orchestrators construct it
(batch.go: `enqueueItems`, `enqueueS3Paths`, `enqueueS3FileContents`):
only `Client`, `QueueURL` and `Retries` set, every other field at its Go
zero value — in particular `messageIDToListIndex` is a nil map. -/
def orchestratorUploader (queueURL : String) (retries : Nat) : SQSBatchUploader :=
  { QueueURL := queueURL
    Retries := some retries
    messageList := []
    messageIDToListIndex := none
    totalBytes := 0
    TotalBatches := 0 }

/-- An uploader whose identity map has been initialised to an empty
(non-nil) map, as `Flush` leaves it after a successful send
(batch_enqueuer.go line 86).  Claims that quantify over add/flush runs in
which `AddToBatch` completes are stated from this state. -/
def initializedUploader (queueURL : String) (retries : Nat) : SQSBatchUploader :=
  { QueueURL := queueURL
    Retries := some retries
    messageList := []
    messageIDToListIndex := some []
    totalBytes := 0
    TotalBatches := 0 }

/-- Go map read `m[k]` with `int` values: a missing key (or a nil map)
yields the zero value `0`. -/
def goMapLookup (m : Option (List (String × Nat))) (k : String) : Nat :=
  match m with
  | none => 0
  | some l =>
    match l.find? (fun p => p.1 == k) with
    | some p => p.2
    | none => 0

/-- Go map write `m[k] = v` on a non-nil map: replace the binding if
present, else append it. -/
def goMapInsert (l : List (String × Nat)) (k : String) (v : Nat) : List (String × Nat) :=
  if l.any (fun p => p.1 == k) then
    l.map (fun p => if p.1 == k then (k, v) else p)
  else
    l ++ [(k, v)]

/-- One logged physical send attempt: the entries handed to
`SendMessageBatch` and whether the call succeeded at the transport level
(`err == nil`). -/
structure SendRecord where
  entries : List SendMessageBatchRequestEntry
  success : Bool
  deriving Repr, DecidableEq

/-- The external world: the SQS backend's response to the `n`-th physical
send attempt (`oracle`), the number of attempts made so far, and the log
of all attempts. -/
structure World where
  oracle : Nat → SendMessageBatchResult
  sendCount : Nat
  sends : List SendRecord

/-- `enqueueToSQS` (batch_enqueuer.go lines 94-108), the pure part: given
the backend's response, the error returned.  When the call itself errors
(`err != nil`): an empty `Failed` list surfaces the transport error
(`errors.WithStack`), a non-empty one reports the first failed entry's
reason wrapped with `"batch <messageIDToListIndex[failedId]>"`.  When the
call returns no error the function returns nil — the `Failed` list is
not inspected on that path. -/
def enqueueToSQS (uploader : SQSBatchUploader) (resp : SendMessageBatchResult) :
    Option GoError :=
  if resp.err then
    match resp.Failed with
    | [] => some GoError.transport
    | f :: _ =>
      some (GoError.failedToEnqueueMessages f.Message
        (goMapLookup uploader.messageIDToListIndex f.Id))
  else none

/-- `enqueueToSQS` with its effect: consumes the oracle's next response
and logs the attempt. -/
def enqueueToSQSRun (uploader : SQSBatchUploader) (w : World) :
    Option GoError × World :=
  let resp := w.oracle w.sendCount
  (enqueueToSQS uploader resp,
    { oracle := w.oracle
      sendCount := w.sendCount + 1
      sends := w.sends ++ [{ entries := uploader.messageList, success := !resp.err }] })

/-- The retry loop of `Flush` (batch_enqueuer.go lines 82-91): up to
`fuel` attempts remain out of `retries` total; on the first success the
pending state is cleared (`messageList = nil`,
`messageIDToListIndex = map[string]int{}`, `totalBytes = 0`) and nil is
returned; when attempts are exhausted the last error is wrapped with the
retry count (`errors.Wrap(err, "failed after retrying %d times")`;
wrapping a nil error yields nil). -/
def flushAttempts (fuel retries : Nat) (uploader : SQSBatchUploader) (w : World)
    (lastErr : Option GoError) : Option GoError × SQSBatchUploader × World :=
  match fuel with
  | 0 => (lastErr.map (fun e => GoError.flushFailed e retries), uploader, w)
  | fuel + 1 =>
    let (e, w') := enqueueToSQSRun uploader w
    match e with
    | none =>
      (none,
        { uploader with
            messageList := []
            messageIDToListIndex := some []
            totalBytes := 0 },
        w')
    | some err => flushAttempts fuel retries uploader w' (some err)

/-- `Flush` (batch_enqueuer.go lines 70-92): a no-op on an empty pending
list; otherwise retries the physical send up to the configured count
(default 3 when `Retries` is nil). -/
def Flush (uploader : SQSBatchUploader) (w : World) :
    Option GoError × SQSBatchUploader × World :=
  if uploader.messageList.length = 0 then (none, uploader, w)
  else
    let retries := uploader.Retries.getD 3
    flushAttempts retries retries uploader w none

/-- Outcome of a modelled Go call: normal return, error return, or a
runtime panic. -/
inductive Status where
  | ok
  | err (e : GoError)
  | panicked
  deriving Repr, DecidableEq

/-- `AddToBatch` (batch_enqueuer.go lines 43-68), line by line: reject a
payload over `_messageSizeLimit`; build the entry; if the new payload
would push `totalBytes` over the limit or the pending count equals
`_maxMessagesPerBatch`, flush the existing pending set first (propagating
a flush error); append the entry to `messageList`; assign
`messageIDToListIndex[id] = TotalBatches` — a panic if the map is nil;
add the body length to `totalBytes`; increment `TotalBatches`. -/
def AddToBatch (uploader : SQSBatchUploader) (w : World) (id : String)
    (body : List Nat) : Status × SQSBatchUploader × World :=
  if body.length > messageSizeLimit then
    (Status.err (GoError.messageExceedsMaxSize body.length messageSizeLimit),
      uploader, w)
  else
    let message : SendMessageBatchRequestEntry :=
      { Id := id
        MessageBody := body
        MessageDeduplicationId := id
        MessageGroupId := id }
    let flushed :=
      if message.MessageBody.length + uploader.totalBytes > messageSizeLimit
          ∨ uploader.messageList.length = maxMessagesPerBatch then
        Flush uploader w
      else (none, uploader, w)
    match flushed with
    | (some e, u1, w1) => (Status.err e, u1, w1)
    | (none, u1, w1) =>
      let u2 := { u1 with messageList := u1.messageList ++ [message] }
      match u2.messageIDToListIndex with
      | none => (Status.panicked, u2, w1)
      | some m =>
        (Status.ok,
          { u2 with
              messageIDToListIndex := some (goMapInsert m id u2.TotalBatches)
              totalBytes := u2.totalBytes + message.MessageBody.length
              TotalBatches := u2.TotalBatches + 1 },
          w1)

/-- One accumulator operation, as the orchestrators issue them. -/
inductive UploaderOp where
  | add (id : String) (body : List Nat)
  | flush
  deriving Repr, DecidableEq

/-- A sequence of `AddToBatch` / `Flush` calls against one uploader, as
in every orchestrator call chain: the first error or panic aborts the
run. -/
def runOps (uploader : SQSBatchUploader) (w : World) :
    List UploaderOp → Status × SQSBatchUploader × World
  | [] => (Status.ok, uploader, w)
  | UploaderOp.add id body :: rest =>
    match AddToBatch uploader w id body with
    | (Status.ok, u', w') => runOps u' w' rest
    | (Status.err e, u', w') => (Status.err e, u', w')
    | (Status.panicked, u', w') => (Status.panicked, u', w')
  | UploaderOp.flush :: rest =>
    match Flush uploader w with
    | (none, u', w') => runOps u' w' rest
    | (some e, u', w') => (Status.err e, u', w')

/-- The number of physical send attempts in a log that succeeded at the
transport level. -/
def countSuccessfulSends (sends : List SendRecord) : Nat :=
  (sends.filter (fun r => r.success)).length

/-- Observer for the amended C1: replay of `runOps` counting the
`AddToBatch` calls that return normally. -/
def countOkAdds (uploader : SQSBatchUploader) (w : World) :
    List UploaderOp → Nat
  | [] => 0
  | UploaderOp.add id body :: rest =>
    match AddToBatch uploader w id body with
    | (Status.ok, u', w') => 1 + countOkAdds u' w' rest
    | (Status.err _, _, _) => 0
    | (Status.panicked, _, _) => 0
  | UploaderOp.flush :: rest =>
    match Flush uploader w with
    | (none, u', w') => countOkAdds u' w' rest
    | (some _, _, _) => 0

/-- An all-success backend world with an empty send log. -/
def worldAllOk : World :=
  { oracle := fun _ => { err := false, Failed := [] }
    sendCount := 0
    sends := [] }

/-- A world whose backend fails every send attempt at the transport
level, with an empty `Failed` list and an empty send log. -/
def worldAllFail : World :=
  { oracle := fun _ => { err := true, Failed := [] }
    sendCount := 0
    sends := [] }

/-- Observer: the error `enqueueToSQS` produces when the transport call
fails (`err != nil`), read off batch_enqueuer.go lines 99-105. -/
def sendFailure (uploader : SQSBatchUploader) (resp : SendMessageBatchResult) :
    GoError :=
  match resp.Failed with
  | [] => GoError.transport
  | f :: _ =>
    GoError.failedToEnqueueMessages f.Message
      (goMapLookup uploader.messageIDToListIndex f.Id)

lemma enqueueToSQS_of_err (u : SQSBatchUploader) (resp : SendMessageBatchResult)
    (h : resp.err = true) : enqueueToSQS u resp = some (sendFailure u resp) := by
  unfold enqueueToSQS sendFailure
  rw [h]
  cases resp.Failed <;> simp

lemma flushAttempts_allFail (k : Nat) :
    ∀ (retries : Nat) (u : SQSBatchUploader) (w : World) (lastErr : Option GoError),
    (∀ n, (w.oracle n).err = true) → 1 ≤ k →
    flushAttempts k retries u w lastErr =
      (some (GoError.flushFailed (sendFailure u (w.oracle (w.sendCount + (k - 1)))) retries),
        u,
        { oracle := w.oracle
          sendCount := w.sendCount + k
          sends := w.sends ++
            List.replicate k { entries := u.messageList, success := false } }) := by
  induction k with
  | zero => intro _ _ _ _ _ hk; omega
  | succ n ih =>
    intro retries u w lastErr hfail _
    have herr : (w.oracle w.sendCount).err = true := hfail w.sendCount
    have hsome := enqueueToSQS_of_err u (w.oracle w.sendCount) herr
    cases n with
    | zero =>
      simp [flushAttempts, enqueueToSQSRun, hsome, herr, List.replicate]
    | succ m =>
      rw [flushAttempts]
      simp only [enqueueToSQSRun, hsome, herr]
      rw [ih retries u
        { oracle := w.oracle
          sendCount := w.sendCount + 1
          sends := w.sends ++ [{ entries := u.messageList, success := !true }] }
        (some (sendFailure u (w.oracle w.sendCount))) hfail (by omega)]
      have h1 : w.sendCount + 1 + (m + 1 - 1) = w.sendCount + (m + 1 + 1 - 1) := by omega
      have h2 : w.sendCount + 1 + (m + 1) = w.sendCount + (m + 1 + 1) := by omega
      simp only [h1, h2, List.replicate_succ]
      simp [List.append_assoc]

lemma flushAttempts_TotalBatches (fuel : Nat) :
    ∀ (retries : Nat) (u : SQSBatchUploader) (w : World) (lastErr : Option GoError),
    (flushAttempts fuel retries u w lastErr).2.1.TotalBatches = u.TotalBatches := by
  induction fuel with
  | zero => intros; rfl
  | succ n ih =>
    intro retries u w lastErr
    rw [flushAttempts]
    cases h : enqueueToSQS u (w.oracle w.sendCount) with
    | none => simp only [enqueueToSQSRun, h]
    | some e => simp only [enqueueToSQSRun, h]; exact ih ..

lemma flush_TotalBatches (u : SQSBatchUploader) (w : World) :
    (Flush u w).2.1.TotalBatches = u.TotalBatches := by
  unfold Flush
  split
  · rfl
  · exact flushAttempts_TotalBatches ..

lemma addToBatch_TotalBatches (u : SQSBatchUploader) (w : World) (id : String)
    (body : List Nat) :
    (AddToBatch u w id body).2.1.TotalBatches =
      (if (AddToBatch u w id body).1 = Status.ok then u.TotalBatches + 1
        else u.TotalBatches) := by
  unfold AddToBatch
  rcases hf : Flush u w with ⟨e, u1, w1⟩
  have hu1 : u1.TotalBatches = u.TotalBatches := by
    have := flush_TotalBatches u w
    rw [hf] at this
    exact this
  by_cases h1 : body.length > messageSizeLimit
  · simp [h1]
  · by_cases h2 : body.length + u.totalBytes > messageSizeLimit
        ∨ u.messageList.length = maxMessagesPerBatch
    · simp only [h1, h2, if_true, if_false, ite_true, ite_false, hf]
      cases e with
      | some e' => simp [hu1]
      | none =>
        cases hm : u1.messageIDToListIndex with
        | none => simp [hm, hu1]
        | some m => simp [hm, hu1]
    · simp only [h1, h2, ite_true, ite_false]
      cases hm : u.messageIDToListIndex with
      | none => simp [h1, h2, hm]
      | some m => simp [h1, h2, hm]

lemma addToBatch_TB_ok (u : SQSBatchUploader) (w : World) (id : String)
    (body : List Nat) (u' : SQSBatchUploader) (w' : World)
    (h : AddToBatch u w id body = (Status.ok, u', w')) :
    u'.TotalBatches = u.TotalBatches + 1 := by
  have := addToBatch_TotalBatches u w id body
  rw [h] at this
  simpa using this

lemma addToBatch_TB_notok (u : SQSBatchUploader) (w : World) (id : String)
    (body : List Nat) (s : Status) (u' : SQSBatchUploader) (w' : World)
    (h : AddToBatch u w id body = (s, u', w')) (hs : s ≠ Status.ok) :
    u'.TotalBatches = u.TotalBatches := by
  have := addToBatch_TotalBatches u w id body
  rw [h] at this
  simpa [hs] using this

/-- C1 (counterexample): the claim "the final value of `TotalBatches`
equals the number of physical `SendMessageBatch` calls that succeeded"
is false.  One `AddToBatch` call on a fresh working uploader (all-success
backend) leaves `TotalBatches = 1` although no physical send at all has
been issued: the counter is incremented at line 66 of batch_enqueuer.go,
inside `AddToBatch`, once per appended message. -/
theorem c1_totalBatches_not_send_count :
    (runOps (initializedUploader "q" 3) worldAllOk
        [UploaderOp.add "a" [120]]).2.1.TotalBatches ≠
      countSuccessfulSends
        (runOps (initializedUploader "q" 3) worldAllOk
          [UploaderOp.add "a" [120]]).2.2.sends := by
  decide

/-- C1 (amended): `TotalBatches` is incremented exactly once per
`AddToBatch` call that returns normally — once per logical message
appended — and `Flush` never changes it; over any sequence of
`AddToBatch`/`Flush` calls its final value is the initial value plus the
number of successful `AddToBatch` calls, regardless of how many physical
sends occurred. -/
theorem c1_totalBatches_counts_adds :
    ∀ (ops : List UploaderOp) (u : SQSBatchUploader) (w : World),
    (runOps u w ops).2.1.TotalBatches = u.TotalBatches + countOkAdds u w ops := by
  intro ops
  induction ops with
  | nil => intro u w; simp [runOps, countOkAdds]
  | cons op rest ih =>
    intro u w
    cases op with
    | add id body =>
      rcases h : AddToBatch u w id body with ⟨s, u', w'⟩
      cases s with
      | ok =>
        have hTB := addToBatch_TB_ok u w id body u' w' h
        simp only [runOps, countOkAdds, h]
        rw [ih u' w', hTB]
        omega
      | err e =>
        have hTB := addToBatch_TB_notok u w id body _ u' w' h (by simp)
        simp only [runOps, countOkAdds, h, hTB]
        omega
      | panicked =>
        have hTB := addToBatch_TB_notok u w id body _ u' w' h (by simp)
        simp only [runOps, countOkAdds, h, hTB]
        omega
    | flush =>
      rcases h : Flush u w with ⟨e, u', w'⟩
      have hTB : u'.TotalBatches = u.TotalBatches := by
        have := flush_TotalBatches u w
        rw [h] at this
        exact this
      cases e with
      | none =>
        simp only [runOps, countOkAdds, h]
        rw [ih u' w', hTB]
      | some e' =>
        simp only [runOps, countOkAdds, h, hTB]
        omega

/-- C2 (code bug): on an uploader constructed exactly as the three
orchestrators construct it (only `Client`, `QueueURL`, `Retries` set, so
`messageIDToListIndex` is a nil map), the very first `AddToBatch` call
with a small in-limit payload hits the nil-map assignment at
batch_enqueuer.go line 64 and panics instead of completing. -/
theorem c2_first_add_panics :
    (AddToBatch (orchestratorUploader "queue" 3) worldAllOk "a" [120]).1 =
      Status.panicked := by
  decide

/-- C3 (counterexample): the claim "whenever a physical send succeeds at
the transport level but the backend reports at least one rejected
message, `enqueueToSQS` returns an error; it never reports such a send
as a success" is false: with `err = nil` and a non-empty `Failed` list,
`enqueueToSQS` returns nil (success) — the `Failed` list is inspected
only under `err != nil` (batch_enqueuer.go lines 99-105). -/
theorem c3_partial_failure_reported_ok :
    enqueueToSQS (orchestratorUploader "q" 3)
      { err := false, Failed := [{ Id := "a", Message := "backend rejected" }] } =
      none := by
  rfl

/-- C3 (amended): `enqueueToSQS` reports an error only when the transport
call itself fails: on a transport-level error with an empty `Failed`
list it surfaces the transport error itself (`errors.WithStack`); on a
transport-level error with a non-empty `Failed` list it reports the
first failed entry's reason wrapped with the batch label looked up in
`messageIDToListIndex`; when the transport call succeeds it returns
success regardless of the `Failed` list. -/
theorem c3_failure_reporting (u : SQSBatchUploader) (resp : SendMessageBatchResult) :
    (resp.err = false → enqueueToSQS u resp = none) ∧
    (resp.err = true → resp.Failed = [] →
      enqueueToSQS u resp = some GoError.transport) ∧
    (∀ f rest, resp.err = true → resp.Failed = f :: rest →
      enqueueToSQS u resp =
        some (GoError.failedToEnqueueMessages f.Message
          (goMapLookup u.messageIDToListIndex f.Id))) := by
  refine ⟨?_, ?_, ?_⟩
  · intro h
    simp [enqueueToSQS, h]
  · intro he hf
    simp [enqueueToSQS, he, hf]
  · intro f rest he hf
    simp [enqueueToSQS, he, hf]

/-- Witness for C3's amended theorem at concrete inputs: a transport
success with a rejected message is reported as success, a transport
failure with an empty `Failed` list surfaces the transport error, and a
transport failure with a rejected message reports that entry's
reason. -/
theorem c3_failure_reporting_witness :
    enqueueToSQS (orchestratorUploader "q" 3)
        { err := false, Failed := [{ Id := "a", Message := "r" }] } = none ∧
      enqueueToSQS (orchestratorUploader "q" 3)
        { err := true, Failed := [] } = some GoError.transport ∧
      enqueueToSQS (orchestratorUploader "q" 3)
        { err := true, Failed := [{ Id := "a", Message := "r" }] } =
        some (GoError.failedToEnqueueMessages "r"
          (goMapLookup (orchestratorUploader "q" 3).messageIDToListIndex "a")) :=
  ⟨(c3_failure_reporting (orchestratorUploader "q" 3)
      { err := false, Failed := [{ Id := "a", Message := "r" }] }).1 rfl,
    (c3_failure_reporting (orchestratorUploader "q" 3)
      { err := true, Failed := [] }).2.1 rfl rfl,
    (c3_failure_reporting (orchestratorUploader "q" 3)
      { err := true, Failed := [{ Id := "a", Message := "r" }] }).2.2
      { Id := "a", Message := "r" } [] rfl rfl⟩

/-- C7: when every physical send attempt fails, `Flush` on a non-empty
pending set performs exactly the configured number of attempts (the
`Retries` field, defaulting to 3 when nil): it consumes exactly that many
oracle responses and logs that many send attempts, returns the last
attempt's error wrapped with the retry count
(`"failed after retrying <retries> times"`), and leaves the uploader —
message list, byte total, identity map, counter — completely unchanged. -/
theorem c7_flush_retries_exhausted (u : SQSBatchUploader) (w : World)
    (hne : u.messageList ≠ [])
    (hfail : ∀ n, (w.oracle n).err = true)
    (hr : 1 ≤ u.Retries.getD 3) :
    Flush u w =
      (some (GoError.flushFailed
          (sendFailure u (w.oracle (w.sendCount + (u.Retries.getD 3 - 1))))
          (u.Retries.getD 3)),
        u,
        { oracle := w.oracle
          sendCount := w.sendCount + u.Retries.getD 3
          sends := w.sends ++
            List.replicate (u.Retries.getD 3)
              { entries := u.messageList, success := false } }) := by
  unfold Flush
  rw [if_neg (by simpa [List.length_eq_zero] using hne)]
  exact flushAttempts_allFail (u.Retries.getD 3) (u.Retries.getD 3) u w none hfail hr

/-- Concrete uploader with one pending message, used as witness input. -/
def pendingUploader : SQSBatchUploader :=
  { QueueURL := "q"
    Retries := some 3
    messageList := [{ Id := "a", MessageBody := [120],
                      MessageDeduplicationId := "a", MessageGroupId := "a" }]
    messageIDToListIndex := some [("a", 0)]
    totalBytes := 1
    TotalBatches := 1 }

/-- Witness for C7: with one pending message and a backend failing every
attempt, `Flush` makes exactly 3 attempts, wraps the transport error with
the retry count 3, and leaves the uploader unchanged. -/
theorem c7_flush_retries_exhausted_witness :
    Flush pendingUploader worldAllFail =
      (some (GoError.flushFailed
          (sendFailure pendingUploader
            (worldAllFail.oracle (worldAllFail.sendCount + (pendingUploader.Retries.getD 3 - 1))))
          (pendingUploader.Retries.getD 3)),
        pendingUploader,
        { oracle := worldAllFail.oracle
          sendCount := worldAllFail.sendCount + pendingUploader.Retries.getD 3
          sends := worldAllFail.sends ++
            List.replicate (pendingUploader.Retries.getD 3)
              { entries := pendingUploader.messageList, success := false } }) :=
  c7_flush_retries_exhausted pendingUploader worldAllFail
    (by simp [pendingUploader]) (fun _ => rfl) (by simp [pendingUploader])

/-- C9: a single `AddToBatch` call whose payload strictly exceeds the
256 KiB ceiling returns the `PayloadTooLarge` error
(`ErrorMessageExceedsMaxSize`) and leaves both the uploader (message
list, byte total, counter, identity map) and the world (no flush, no
physical send) completely unchanged. -/
theorem c9_oversize_rejected_unchanged (u : SQSBatchUploader) (w : World)
    (id : String) (body : List Nat) (h : body.length > messageSizeLimit) :
    AddToBatch u w id body =
      (Status.err (GoError.messageExceedsMaxSize body.length messageSizeLimit),
        u, w) := by
  unfold AddToBatch
  rw [if_pos h]

/-- Witness for C9 at a concrete 256 KiB + 1 payload. -/
theorem c9_oversize_rejected_unchanged_witness :
    AddToBatch (orchestratorUploader "q" 3) worldAllOk "a"
        (List.replicate (messageSizeLimit + 1) 0) =
      (Status.err (GoError.messageExceedsMaxSize
          (List.replicate (messageSizeLimit + 1) 0).length messageSizeLimit),
        orchestratorUploader "q" 3, worldAllOk) :=
  c9_oversize_rejected_unchanged (orchestratorUploader "q" 3) worldAllOk "a"
    (List.replicate (messageSizeLimit + 1) 0) (by simp)

/-- Aggregate payload bytes of a list of batch entries. -/
def entriesBytes (l : List SendMessageBatchRequestEntry) : Nat :=
  (l.map (fun m => m.MessageBody.length)).sum

/-- A physical send within the backend's documented limits: aggregate
payload bytes at most the 256 KiB ceiling and at most 10 messages. -/
def sendWithinLimits (r : SendRecord) : Prop :=
  entriesBytes r.entries ≤ messageSizeLimit ∧
  r.entries.length ≤ maxMessagesPerBatch

/-- Reachable-state invariant of a working uploader: `totalBytes` is the
actual byte total of the pending list, the pending set is within both
quotas, the identity map is non-nil, and the configured retry count is
positive (the orchestrators set it to 3). -/
def goodState (u : SQSBatchUploader) : Prop :=
  u.totalBytes = entriesBytes u.messageList ∧
  u.totalBytes ≤ messageSizeLimit ∧
  u.messageList.length ≤ maxMessagesPerBatch ∧
  u.messageIDToListIndex.isSome = true ∧
  1 ≤ u.Retries.getD 3

instance (u : SQSBatchUploader) : Decidable (goodState u) := by
  unfold goodState
  infer_instance

instance (r : SendRecord) : Decidable (sendWithinLimits r) := by
  unfold sendWithinLimits
  infer_instance

/-- The uploader state `Flush` installs on a successful send. -/
def clearedUploader (u : SQSBatchUploader) : SQSBatchUploader :=
  { u with messageList := [], messageIDToListIndex := some [], totalBytes := 0 }

lemma goodState_cleared (u : SQSBatchUploader) (hg : goodState u) :
    goodState (clearedUploader u) := by
  obtain ⟨-, -, -, -, h5⟩ := hg
  exact ⟨by simp [clearedUploader, entriesBytes], by simp [clearedUploader],
    by simp [clearedUploader, maxMessagesPerBatch], by simp [clearedUploader], h5⟩

lemma flushAttempts_uploader_cases (fuel : Nat) :
    ∀ (retries : Nat) (u : SQSBatchUploader) (w : World) (lastErr : Option GoError),
    (flushAttempts fuel retries u w lastErr).2.1 = u ∨
    (flushAttempts fuel retries u w lastErr).2.1 = clearedUploader u := by
  induction fuel with
  | zero => intros; left; rfl
  | succ n ih =>
    intro retries u w lastErr
    rw [flushAttempts]
    cases h : enqueueToSQS u (w.oracle w.sendCount) with
    | none => simp only [enqueueToSQSRun, h]; right; rfl
    | some e => simp only [enqueueToSQSRun, h]; exact ih ..

lemma flushAttempts_sends (fuel : Nat) :
    ∀ (retries : Nat) (u : SQSBatchUploader) (w : World) (lastErr : Option GoError),
    ∀ rec ∈ (flushAttempts fuel retries u w lastErr).2.2.sends,
      rec ∈ w.sends ∨ rec.entries = u.messageList := by
  induction fuel with
  | zero => intro _ _ _ _ rec hrec; exact Or.inl hrec
  | succ n ih =>
    intro retries u w lastErr
    rw [flushAttempts]
    cases h : enqueueToSQS u (w.oracle w.sendCount) with
    | none =>
      simp only [enqueueToSQSRun, h]
      intro rec hrec
      rcases List.mem_append.mp hrec with h1 | h1
      · exact Or.inl h1
      · right
        simp only [List.mem_singleton] at h1
        rw [h1]
    | some e =>
      simp only [enqueueToSQSRun, h]
      intro rec hrec
      rcases ih retries u _ (some e) rec hrec with h1 | h1
      · rcases List.mem_append.mp h1 with h2 | h2
        · exact Or.inl h2
        · right
          simp only [List.mem_singleton] at h2
          rw [h2]
      · exact Or.inr h1

lemma flushAttempts_none_cleared (fuel : Nat) :
    ∀ (retries : Nat) (u : SQSBatchUploader) (w : World) (lastErr : Option GoError),
    (flushAttempts fuel retries u w lastErr).1 = none →
    (flushAttempts fuel retries u w lastErr).2.1 = clearedUploader u ∨
      (fuel = 0 ∧ lastErr = none) := by
  induction fuel with
  | zero =>
    intro retries u w lastErr h
    right
    refine ⟨rfl, ?_⟩
    cases lastErr with
    | none => rfl
    | some e => simp [flushAttempts] at h
  | succ n ih =>
    intro retries u w lastErr
    rw [flushAttempts]
    cases h : enqueueToSQS u (w.oracle w.sendCount) with
    | none =>
      simp only [enqueueToSQSRun, h]
      intro _
      left
      rfl
    | some e =>
      simp only [enqueueToSQSRun, h]
      intro hnone
      rcases ih retries u _ (some e) hnone with h1 | ⟨h1, h2⟩
      · exact Or.inl h1
      · exact absurd h2 (by simp)

lemma flush_sends (u : SQSBatchUploader) (w : World) :
    ∀ rec ∈ (Flush u w).2.2.sends, rec ∈ w.sends ∨ rec.entries = u.messageList := by
  unfold Flush
  split
  · intro rec hrec; exact Or.inl hrec
  · intro rec hrec
    exact flushAttempts_sends _ _ _ _ _ rec hrec

lemma flush_none_cases (u : SQSBatchUploader) (w : World)
    (h : (Flush u w).1 = none) :
    (Flush u w).2.1 = clearedUploader u ∨
      ((Flush u w).2.1 = u ∧ (u.messageList = [] ∨ u.Retries.getD 3 = 0)) := by
  unfold Flush at h ⊢
  split at h
  · rename_i hempty
    refine Or.inr ⟨?_, Or.inl (List.length_eq_zero.mp hempty)⟩
    rw [if_pos hempty]
  · rename_i hne
    simp only [if_neg hne]
    rcases flushAttempts_none_cleared (u.Retries.getD 3) (u.Retries.getD 3) u w none h
      with h1 | ⟨h1, -⟩
    · exact Or.inl h1
    · right
      constructor
      · rw [h1]; rfl
      · exact Or.inr h1

lemma entriesBytes_append (l : List SendMessageBatchRequestEntry)
    (m : SendMessageBatchRequestEntry) :
    entriesBytes (l ++ [m]) = entriesBytes l + m.MessageBody.length := by
  simp [entriesBytes]

lemma goodState_within (u : SQSBatchUploader) (hg : goodState u)
    (rec : SendRecord) (h : rec.entries = u.messageList) : sendWithinLimits rec := by
  obtain ⟨h1, h2, h3, -, -⟩ := hg
  exact ⟨by rw [h, ← h1]; exact h2, by rw [h]; exact h3⟩

lemma addToBatch_invariant (u : SQSBatchUploader) (w : World) (id : String)
    (body : List Nat) (hg : goodState u) :
    (∀ rec ∈ (AddToBatch u w id body).2.2.sends,
      rec ∈ w.sends ∨ sendWithinLimits rec) ∧
    ((AddToBatch u w id body).1 = Status.ok →
      goodState (AddToBatch u w id body).2.1) := by
  have hsends := flush_sends u w
  unfold AddToBatch
  by_cases h1 : body.length > messageSizeLimit
  · simp only [if_pos h1]
    exact ⟨fun rec hrec => Or.inl hrec, by intro hok; cases hok⟩
  · simp only [if_neg h1]
    by_cases h2 : body.length + u.totalBytes > messageSizeLimit
        ∨ u.messageList.length = maxMessagesPerBatch
    · rcases hf : Flush u w with ⟨e, u1, w1⟩
      rw [hf] at hsends
      have hsends' : ∀ rec ∈ w1.sends, rec ∈ w.sends ∨ sendWithinLimits rec := by
        intro rec hrec
        rcases hsends rec hrec with hl | hr
        · exact Or.inl hl
        · exact Or.inr (goodState_within u hg rec hr)
      simp only [h2, if_true, ite_true, hf]
      cases e with
      | some e' => exact ⟨hsends', by intro hok; cases hok⟩
      | none =>
        have hu1 : goodState u1 ∧ u1.totalBytes + body.length ≤ messageSizeLimit
            ∧ u1.messageList.length < maxMessagesPerBatch := by
          have hnone : (Flush u w).1 = none := by rw [hf]
          rcases flush_none_cases u w hnone with hc | ⟨hc, hor⟩
          · rw [hf] at hc
            simp only at hc
            subst hc
            refine ⟨goodState_cleared u hg, ?_, ?_⟩
            · simp [clearedUploader]
              omega
            · simp [clearedUploader, maxMessagesPerBatch]
          · rw [hf] at hc
            simp only at hc
            subst hc
            obtain ⟨hb1, hb2, hb3, hb4, hb5⟩ := hg
            rcases hor with hemp | hzero
            · rw [hemp] at hb1
              simp [entriesBytes] at hb1
              exfalso
              rcases h2 with hx | hx
              · omega
              · rw [hemp] at hx
                simp [maxMessagesPerBatch] at hx
            · omega
        obtain ⟨hgu1, hbytes, hcount⟩ := hu1
        cases hm : u1.messageIDToListIndex with
        | none =>
          exfalso
          obtain ⟨-, -, -, hs, -⟩ := hgu1
          rw [hm] at hs
          cases hs
        | some m =>
          simp only [hm]
          refine ⟨hsends', fun _ => ?_⟩
          obtain ⟨hb1, hb2, hb3, hb4, hb5⟩ := hgu1
          refine ⟨?_, ?_, ?_, by simp, hb5⟩
          · simp only [entriesBytes_append, hb1]
          · simpa using hbytes
          · simpa using hcount
    · simp only [h2, if_false, ite_false]
      obtain ⟨hb1, hb2, hb3, hb4, hb5⟩ := hg
      push_neg at h2
      obtain ⟨h2a, h2b⟩ := h2
      cases hm : u.messageIDToListIndex with
      | none => rw [hm] at hb4; cases hb4
      | some m =>
        simp only [hm]
        refine ⟨fun rec hrec => Or.inl hrec, fun _ => ?_⟩
        refine ⟨?_, ?_, ?_, by simp, hb5⟩
        · simp only [entriesBytes_append, hb1]
        · simp only []
          omega
        · have : u.messageList.length < maxMessagesPerBatch :=
            lt_of_le_of_ne hb3 h2b
          simpa using this

lemma flush_none_good (u : SQSBatchUploader) (w : World) (hg : goodState u)
    (h : (Flush u w).1 = none) : goodState (Flush u w).2.1 := by
  rcases flush_none_cases u w h with hc | ⟨hc, -⟩
  · rw [hc]
    exact goodState_cleared u hg
  · rw [hc]
    exact hg

lemma runOps_sends_bounded :
    ∀ (ops : List UploaderOp) (u : SQSBatchUploader) (w : World), goodState u →
    ∀ rec ∈ (runOps u w ops).2.2.sends, rec ∈ w.sends ∨ sendWithinLimits rec := by
  intro ops
  induction ops with
  | nil => intro u w _ rec hrec; exact Or.inl hrec
  | cons op rest ih =>
    intro u w hg
    cases op with
    | add id body =>
      have hinv := addToBatch_invariant u w id body hg
      rcases h : AddToBatch u w id body with ⟨s, u', w'⟩
      rw [h] at hinv
      cases s with
      | ok =>
        intro rec hrec
        simp only [runOps, h] at hrec
        rcases ih u' w' (hinv.2 rfl) rec hrec with hl | hr
        · exact hinv.1 rec hl
        · exact Or.inr hr
      | err e =>
        intro rec hrec
        simp only [runOps, h] at hrec
        exact hinv.1 rec hrec
      | panicked =>
        intro rec hrec
        simp only [runOps, h] at hrec
        exact hinv.1 rec hrec
    | flush =>
      have hsends := flush_sends u w
      rcases h : Flush u w with ⟨e, u', w'⟩
      rw [h] at hsends
      have hsends' : ∀ rec ∈ w'.sends, rec ∈ w.sends ∨ sendWithinLimits rec := by
        intro rec hrec
        rcases hsends rec hrec with hl | hr
        · exact Or.inl hl
        · exact Or.inr (goodState_within u hg rec hr)
      cases e with
      | none =>
        have hg' : goodState u' := by
          have := flush_none_good u w hg (by rw [h])
          rw [h] at this
          exact this
        intro rec hrec
        simp only [runOps, h] at hrec
        rcases ih u' w' hg' rec hrec with hl | hr
        · exact hsends' rec hl
        · exact Or.inr hr
      | some e' =>
        intro rec hrec
        simp only [runOps, h] at hrec
        exact hsends' rec hrec

/-- C4: (a) for every sequence of `AddToBatch`/`Flush` calls against a
working accumulator whose payloads are each at most the 256 KiB ceiling,
every physical send the accumulator issues carries aggregate payload
bytes at most the ceiling and at most 10 messages; (b) the pre-add flush
is triggered only on a strict overshoot: when the new payload makes the
byte total exactly equal to the ceiling (and the count limit is not hit),
no flush and no physical send happens — the message simply joins the
same pending batch. -/
theorem c4_physical_send_limits :
    (∀ (ops : List UploaderOp) (u : SQSBatchUploader) (w : World),
      goodState u → w.sends = [] →
      (∀ op ∈ ops, ∀ id body, op = UploaderOp.add id body →
        body.length ≤ messageSizeLimit) →
      ∀ rec ∈ (runOps u w ops).2.2.sends, sendWithinLimits rec) ∧
    (∀ (u : SQSBatchUploader) (w : World) (id : String) (body : List Nat),
      goodState u →
      body.length + u.totalBytes = messageSizeLimit →
      u.messageList.length < maxMessagesPerBatch →
      (AddToBatch u w id body).2.2 = w ∧
      (AddToBatch u w id body).2.1.messageList =
        u.messageList ++ [{ Id := id, MessageBody := body,
                            MessageDeduplicationId := id, MessageGroupId := id }]) := by
  constructor
  · intro ops u w hg hw _ rec hrec
    rcases runOps_sends_bounded ops u w hg rec hrec with hl | hr
    · rw [hw] at hl
      cases hl
    · exact hr
  · intro u w id body hg hsum hcount
    obtain ⟨hb1, hb2, hb3, hb4, hb5⟩ := hg
    have h1 : ¬ body.length > messageSizeLimit := by omega
    have h2 : ¬ (body.length + u.totalBytes > messageSizeLimit
        ∨ u.messageList.length = maxMessagesPerBatch) := by
      push_neg
      exact ⟨by omega, by omega⟩
    cases hm : u.messageIDToListIndex with
    | none =>
      rw [hm] at hb4
      cases hb4
    | some m =>
      unfold AddToBatch
      simp only [if_neg h1, if_neg h2, hm]
      constructor <;> trivial

/-- Witness for C4 at concrete inputs: the single physical send produced
by adding one message and flushing is within both limits, and an add
whose payload makes the pending byte total exactly 256 KiB triggers no
send and joins the pending batch. -/
theorem c4_physical_send_limits_witness :
    sendWithinLimits
      { entries := [{ Id := "a", MessageBody := [120],
                      MessageDeduplicationId := "a", MessageGroupId := "a" }],
        success := true } ∧
    (AddToBatch pendingUploader worldAllOk "b"
        (List.replicate (messageSizeLimit - 1) 0)).2.2 = worldAllOk ∧
    (AddToBatch pendingUploader worldAllOk "b"
        (List.replicate (messageSizeLimit - 1) 0)).2.1.messageList =
      pendingUploader.messageList ++
        [{ Id := "b", MessageBody := List.replicate (messageSizeLimit - 1) 0,
           MessageDeduplicationId := "b", MessageGroupId := "b" }] := by
  have haux : ∀ op ∈ [UploaderOp.add "a" [120], UploaderOp.flush],
      ∀ id body, op = UploaderOp.add id body → body.length ≤ messageSizeLimit := by
    intro op hop id body heq
    subst heq
    simp only [List.mem_cons, List.not_mem_nil, or_false] at hop
    rcases hop with h | h
    · injection h with hi hb
      rw [hb]
      decide
    · simp at h
  have h1 := (c4_physical_send_limits).1
    [UploaderOp.add "a" [120], UploaderOp.flush]
    (initializedUploader "q" 3) worldAllOk (by decide) rfl haux
    { entries := [{ Id := "a", MessageBody := [120],
                    MessageDeduplicationId := "a", MessageGroupId := "a" }],
      success := true } (by decide)
  have h2 := (c4_physical_send_limits).2 pendingUploader worldAllOk "b"
    (List.replicate (messageSizeLimit - 1) 0)
    (by decide)
    (by rw [List.length_replicate]; decide)
    (by decide)
  exact ⟨h1, h2.1, h2.2⟩

/-- Batch count of `enqueueItems` (batch.go lines 120-123): integer
division of the item count by the batch size, plus one when there is a
remainder. -/
def goBatchCount (n batchSize : Nat) : Nat :=
  n / batchSize + (if n % batchSize = 0 then 0 else 1)

/-- Slice sequence of the `enqueueItems` loop (batch.go lines 133-140):
slice `i` is `items[min:max]` with `min = i*batchSize` and
`max = (i+1)*batchSize` capped at `len(items)`; each loop iteration
marshals one slice and performs exactly one `AddToBatch` call on it
(line 145). -/
def itemSlices {α : Type} (items : List α) (batchSize : Nat) : List (List α) :=
  (List.range (goBatchCount items.length batchSize)).map (fun i =>
    (items.take (min ((i + 1) * batchSize) items.length)).drop (i * batchSize))

lemma goBatchCount_zero (B : Nat) : goBatchCount 0 B = 0 := by
  simp [goBatchCount]

lemma goBatchCount_step (n B : Nat) (hB : 0 < B) (hn : 0 < n) :
    goBatchCount n B = goBatchCount (n - B) B + 1 := by
  unfold goBatchCount
  rcases le_or_lt n B with h | h
  · have h0 : n - B = 0 := by omega
    rw [h0]
    simp only [Nat.zero_div, Nat.zero_mod, if_pos rfl, Nat.add_zero, Nat.zero_add]
    rcases eq_or_lt_of_le h with he | hlt
    · rw [he, Nat.div_self hB, Nat.mod_self]
      simp
    · rw [Nat.div_eq_of_lt hlt, Nat.mod_eq_of_lt hlt]
      simp [Nat.pos_iff_ne_zero.mp hn]
  · have hsub : n - B + B = n := by omega
    conv_lhs => rw [← hsub]
    rw [Nat.add_div_right _ hB, Nat.add_mod_right]
    exact Nat.add_right_comm _ 1 _

lemma goBatchCount_eq_ceil (n B : Nat) (hB : 0 < B) :
    goBatchCount n B = (n + B - 1) / B := by
  unfold goBatchCount
  have hdm := Nat.div_add_mod n B
  by_cases h : n % B = 0
  · have e1 : n + B - 1 = B * (n / B) + (B - 1) := by omega
    rw [h, if_pos rfl, e1, Nat.mul_add_div hB,
      Nat.div_eq_of_lt (show B - 1 < B by omega)]
  · have hr : 0 < n % B := Nat.pos_of_ne_zero h
    have hrB : n % B < B := Nat.mod_lt n hB
    have e2 : B * (n / B + 1) = B * (n / B) + B := by ring
    have e1 : n + B - 1 = B * (n / B + 1) + (n % B - 1) := by omega
    rw [if_neg h, e1, Nat.mul_add_div hB,
      Nat.div_eq_of_lt (show n % B - 1 < B by omega)]

lemma itemSlices_peel {α : Type} (items : List α) (B : Nat) (hB : 0 < B)
    (hne : items ≠ []) :
    itemSlices items B = items.take B :: itemSlices (items.drop B) B := by
  have hn : 0 < items.length := List.length_pos.mpr hne
  unfold itemSlices
  rw [List.length_drop, goBatchCount_step items.length B hB hn,
    List.range_succ_eq_map, List.map_cons, List.map_map]
  congr 1
  · simp only [Nat.zero_add, Nat.one_mul, Nat.zero_mul, List.drop_zero]
    exact List.take_eq_take.mpr (by omega)
  · apply List.map_congr_left
    intro i _
    simp only [Function.comp_apply, Nat.succ_eq_add_one]
    rw [List.drop_take, List.drop_take, List.drop_drop]
    have e1 : (i + 1 + 1) * B = i * B + B + B := by ring
    have e2 : (i + 1) * B = i * B + B := by ring
    have e3 : B + i * B = i * B + B := by ring
    rw [e1, e2, e3]
    congr 1
    omega

lemma itemSlices_flatten {α : Type} (B : Nat) (hB : 0 < B) :
    ∀ (items : List α), (itemSlices items B).flatten = items := by
  have main : ∀ (n : Nat) (items : List α), items.length ≤ n →
      (itemSlices items B).flatten = items := by
    intro n
    induction n with
    | zero =>
      intro items h
      have : items = [] := List.length_eq_zero.mp (Nat.le_zero.mp h)
      rw [this]
      simp [itemSlices, goBatchCount_zero]
    | succ n ih =>
      intro items h
      by_cases hne : items = []
      · rw [hne]
        simp [itemSlices, goBatchCount_zero]
      · rw [itemSlices_peel items B hB hne, List.flatten_cons,
          ih (items.drop B) (by rw [List.length_drop]; omega)]
        exact List.take_append_drop B items
  intro items
  exact main items.length items le_rfl

/-- C8: for a positive batch size `B`, the item-list orchestrator
partitions an `N`-item list into exactly `ceil(N/B)` contiguous slices
in original order — concatenating the emitted slices reproduces the
original item sequence exactly, so no item is lost or duplicated — and
the loop performs one `AddToBatch` call per slice (one per loop
iteration). -/
theorem c8_item_partition {α : Type} (items : List α) (B : Nat) (hB : 0 < B) :
    (itemSlices items B).length = (items.length + B - 1) / B ∧
    (itemSlices items B).flatten = items := by
  constructor
  · unfold itemSlices
    rw [List.length_map, List.length_range, goBatchCount_eq_ceil _ _ hB]
  · exact itemSlices_flatten B hB items

/-- Witness for C8: 5 items with batch size 2 give ceil(5/2) = 3 slices
whose concatenation is the original list. -/
theorem c8_item_partition_witness :
    (itemSlices [1, 2, 3, 4, 5] 2).length = (([1, 2, 3, 4, 5] : List Nat).length + 2 - 1) / 2 ∧
    (itemSlices [1, 2, 3, 4, 5] 2).flatten = [1, 2, 3, 4, 5] :=
  c8_item_partition [1, 2, 3, 4, 5] 2 (by decide)

/-- Collaborator outcomes of one `enqueue` call (batch.go lines 68-117):
whether the initial liveness write succeeds, which submission fields are
populated (a `some` models a non-nil field, carrying the outcome the
corresponding orchestrator would return), and whether the single
sentinel `SendMessage` call succeeds.  The liveness heartbeat cron runs
concurrently, is cancelled by the `defer`, and does not influence this
control flow. -/
structure EnqueueEnv where
  livenessOk : Bool
  itemList : Option (Except GoError Nat)
  filePathLister : Option (Except GoError Nat)
  delimitedFiles : Option (Except GoError Nat)
  sentinelOk : Bool

/-- Externally observable driver event: one direct single-message
`SendMessage` call with the given body (not routed through the
accumulator).  Its deduplication and group ids are a fresh random name
(`k8s.RandomName()`), not modelled. -/
inductive DriverEvent where
  | sentinelSend (body : String)
  deriving Repr, DecidableEq

/-- Orchestrator selection of `enqueue` (batch.go lines 82-97): the
first populated field in the fixed order item list, file-path lister,
delimited files; `none` when no field is populated (the driver then
keeps `totalBatches = 0`). -/
def selectedOrchestrator (env : EnqueueEnv) : Option (Except GoError Nat) :=
  match env.itemList with
  | some r => some r
  | none =>
    match env.filePathLister with
    | some r => some r
    | none =>
      match env.delimitedFiles with
      | some r => some r
      | none => none

/-- The `enqueue` driver (batch.go lines 68-117): initial liveness write
(failure aborts), one orchestrator selected by field precedence (its
error aborts, returning that error), then a single direct sentinel
`SendMessage` with the fixed literal body `"job_complete"` (its failure
is wrapped and returned).  The returned pair is the list of sentinel
send calls made and the driver's result. -/
def enqueue (env : EnqueueEnv) : List DriverEvent × Except GoError Nat :=
  if env.livenessOk = false then
    ([], Except.error (GoError.external "failed to update liveness"))
  else
    let orchestrated : Except GoError Nat :=
      match selectedOrchestrator env with
      | some r => r
      | none => Except.ok 0
    match orchestrated with
    | Except.error e => ([], Except.error e)
    | Except.ok totalBatches =>
      if env.sentinelOk then
        ([DriverEvent.sentinelSend "\"job_complete\""], Except.ok totalBatches)
      else
        ([DriverEvent.sentinelSend "\"job_complete\""],
          Except.error (GoError.external "failed to enqueue job_complete placeholder"))

/-- C10: the driver sends the fixed-literal `"job_complete"` sentinel via
a single direct send exactly once, and only after the selected
orchestrator returns success; when the selected orchestrator returns an
error, no sentinel send is made at all and that very error is returned
(the batches already sent stay in the queue — nothing is rolled back). -/
theorem c10_sentinel_after_success (env : EnqueueEnv) :
    (∀ e, env.livenessOk = true →
      selectedOrchestrator env = some (Except.error e) →
      enqueue env = ([], Except.error e)) ∧
    (∀ tb, env.livenessOk = true →
      selectedOrchestrator env = some (Except.ok tb) →
      (enqueue env).1 = [DriverEvent.sentinelSend "\"job_complete\""] ∧
      (env.sentinelOk = true → (enqueue env).2 = Except.ok tb)) := by
  constructor
  · intro e hl hs
    unfold enqueue
    rw [hl]
    simp only [Bool.true_eq_false, if_false, hs]
  · intro tb hl hs
    unfold enqueue
    rw [hl]
    simp only [Bool.true_eq_false, if_false, hs]
    constructor
    · cases h : env.sentinelOk <;> simp [h]
    · intro h
      simp [h]

/-- Concrete driver environment whose item-list orchestrator errors. -/
def envOrchErr : EnqueueEnv :=
  { livenessOk := true, itemList := some (Except.error GoError.transport),
    filePathLister := none, delimitedFiles := none, sentinelOk := true }

/-- Concrete driver environment whose item-list orchestrator reports 3
batches. -/
def envOrchOk : EnqueueEnv :=
  { livenessOk := true, itemList := some (Except.ok 3),
    filePathLister := none, delimitedFiles := none, sentinelOk := true }

/-- Witness for C10 at concrete environments: an erroring item-list
orchestrator yields no sentinel send and its own error; a successful one
yields exactly one sentinel send and the reported count. -/
theorem c10_sentinel_after_success_witness :
    enqueue envOrchErr = ([], Except.error GoError.transport) ∧
    (enqueue envOrchOk).1 = [DriverEvent.sentinelSend "\"job_complete\""] ∧
    (enqueue envOrchOk).2 = Except.ok 3 := by
  refine ⟨?_, ?_, ?_⟩
  · exact (c10_sentinel_after_success envOrchErr).1 GoError.transport rfl rfl
  · exact ((c10_sentinel_after_success envOrchOk).2 3 rfl rfl).1
  · exact ((c10_sentinel_after_success envOrchOk).2 3 rfl rfl).2 rfl

/-!
The streaming document splitter of `streamJSONToQueue` (batch.go lines
298-333) is Go's `encoding/json.Decoder` decoding one `json.RawMessage`
at a time from `bytesBuffer`.  A fresh decoder is created per chunk over
the shared buffer; on `io.EOF` the loop ends with the buffer drained; on
`io.ErrUnexpectedEOF` the buffer is reset to `dec.Buffered()` — the
complete unconsumed tail, since `Decode` advances `scanp` only on
success — and the error is swallowed unless the chunk is the file's
last.

The decoder is standard-library code (not part of this repository), so
its value-boundary behaviour is modelled here byte-for-byte from
`encoding/json`'s scanner, at the granularity the claims depend on:

- leading whitespace (space, tab, newline, carriage return) is skipped;
- an object or array ends exactly at its matching closing bracket
  (strings inside containers, with backslash escapes, are opaque);
- a string ends at its closing unescaped quote;
- the literals `true`/`false`/`null` end exactly at their final letter;
- a number ends at the first byte that cannot extend it, or at the end
  of the buffer: `readValue` feeds a virtual space to the scanner on
  `io.EOF`, which completes a syntactically finished number or literal
  (`stateEndTop` returns `scanEnd` even for a non-space byte, and the
  stashed complaint dies with the per-chunk decoder), so a trailing
  number is decoded eagerly — the source of the chunking counterexample;
- a buffer ending inside an unfinished value yields `io.ErrUnexpectedEOF`
  (`needMore` here); a byte that can start no value yields a syntax
  error.

Interior grammar validation (commas, colons, escape and digit shapes
inside containers) is not modelled: on the well-formed streams all the
splitter claims quantify over, Go's scanner accepts, so every value
boundary and error below coincides with the decoder's.
-/

/-- Whitespace bytes skipped by the scanner (`isSpace` in
encoding/json): space, tab, newline, carriage return. -/
def isWSByte (c : Nat) : Bool :=
  c = 32 ∨ c = 9 ∨ c = 10 ∨ c = 13

/-- Drop the scanner's leading whitespace. -/
def dropWS (bs : List Nat) : List Nat :=
  bs.dropWhile isWSByte

/-- Result of scanning for the end of one value from some position:
`upto n` — the value's last byte is at offset `n - 1`, i.e. `n` bytes
belong to it; `more` — the buffer ended inside the value; `bad` — a
byte that cannot occur there. -/
inductive AuxRes where
  | upto (n : Nat)
  | more
  | bad
  deriving Repr, DecidableEq

/-- Count one more consumed byte. -/
def AuxRes.push : AuxRes → AuxRes
  | AuxRes.upto n => AuxRes.upto (n + 1)
  | AuxRes.more => AuxRes.more
  | AuxRes.bad => AuxRes.bad

/-- Scan the remainder of a string value (opening quote already
consumed): a backslash escapes the next byte; the value ends at the
closing quote. -/
def stringAux : List Nat → Bool → AuxRes
  | [], _ => AuxRes.more
  | c :: rest, esc =>
    if esc then (stringAux rest false).push
    else if c = 92 then (stringAux rest true).push
    else if c = 34 then AuxRes.upto 1
    else (stringAux rest false).push

/-- Scan the remainder of an object/array value (opening bracket already
consumed, recorded on `stack`: `true` = object): strings inside are
tracked with their escapes; matching closers pop the stack; the value
ends at the closer that empties it; a mismatched closer is an error;
every other byte is opaque interior. -/
def containerAux : List Nat → List Bool → Bool → Bool → AuxRes
  | [], _, _, _ => AuxRes.more
  | c :: rest, stack, inStr, esc =>
    if inStr then
      if esc then (containerAux rest stack true false).push
      else if c = 92 then (containerAux rest stack true true).push
      else if c = 34 then (containerAux rest stack false false).push
      else (containerAux rest stack true false).push
    else if c = 34 then (containerAux rest stack true false).push
    else if c = 123 then (containerAux rest (true :: stack) false false).push
    else if c = 91 then (containerAux rest (false :: stack) false false).push
    else if c = 125 then
      match stack with
      | true :: s =>
        match s with
        | [] => AuxRes.upto 1
        | _ :: _ => (containerAux rest s false false).push
      | _ => AuxRes.bad
    else if c = 93 then
      match stack with
      | false :: s =>
        match s with
        | [] => AuxRes.upto 1
        | _ :: _ => (containerAux rest s false false).push
      | _ => AuxRes.bad
    else (containerAux rest stack false false).push

/-- Scan the remainder of a `true`/`false`/`null` literal (first letter
already consumed, remaining expected spelling in the first argument):
the value ends at the final letter, whatever follows; a wrong letter is
an error; running out mid-spelling needs more bytes. -/
def litAux : List Nat → List Nat → AuxRes
  | [], _ => AuxRes.upto 0
  | _ :: _, [] => AuxRes.more
  | e :: es, c :: cs => if c = e then (litAux es cs).push else AuxRes.bad

/-- Number-scanning states of encoding/json's scanner: after `-`, after
a leading `0`, inside the integer digits, after `.`, inside fraction
digits, after `e`/`E`, after an exponent sign, inside exponent digits. -/
inductive NumPhase where
  | neg
  | zero
  | intg
  | dot
  | frac
  | e
  | esign
  | expDigits
  deriving Repr, DecidableEq

/-- States in which a number may end (a virtual trailing space yields
`scanEnd`). -/
def numAccepting : NumPhase → Bool
  | NumPhase.zero => true
  | NumPhase.intg => true
  | NumPhase.frac => true
  | NumPhase.expDigits => true
  | _ => false

/-- One byte of number scanning: `some` when the byte extends the
number. -/
def numStep (p : NumPhase) (c : Nat) : Option NumPhase :=
  match p with
  | NumPhase.neg =>
    if c = 48 then some NumPhase.zero
    else if 49 ≤ c ∧ c ≤ 57 then some NumPhase.intg
    else none
  | NumPhase.zero =>
    if c = 46 then some NumPhase.dot
    else if c = 101 ∨ c = 69 then some NumPhase.e
    else none
  | NumPhase.intg =>
    if 48 ≤ c ∧ c ≤ 57 then some NumPhase.intg
    else if c = 46 then some NumPhase.dot
    else if c = 101 ∨ c = 69 then some NumPhase.e
    else none
  | NumPhase.dot =>
    if 48 ≤ c ∧ c ≤ 57 then some NumPhase.frac else none
  | NumPhase.frac =>
    if 48 ≤ c ∧ c ≤ 57 then some NumPhase.frac
    else if c = 101 ∨ c = 69 then some NumPhase.e
    else none
  | NumPhase.e =>
    if c = 43 ∨ c = 45 then some NumPhase.esign
    else if 48 ≤ c ∧ c ≤ 57 then some NumPhase.expDigits
    else none
  | NumPhase.esign =>
    if 48 ≤ c ∧ c ≤ 57 then some NumPhase.expDigits else none
  | NumPhase.expDigits =>
    if 48 ≤ c ∧ c ≤ 57 then some NumPhase.expDigits else none

/-- Scan the remainder of a number (first byte already consumed): the
value ends before the first non-extending byte if the state accepts
(else that byte is an error), and at the end of the buffer if the state
accepts (the virtual-space completion) — else more bytes are needed. -/
def numAux : List Nat → NumPhase → AuxRes
  | [], p => if numAccepting p then AuxRes.upto 0 else AuxRes.more
  | c :: rest, p =>
    match numStep p c with
    | some p' => (numAux rest p').push
    | none => if numAccepting p then AuxRes.upto 0 else AuxRes.bad

/-- Dispatch on the first non-whitespace byte of a value. -/
def scanCore (c : Nat) (rest : List Nat) : AuxRes :=
  if c = 123 then (containerAux rest [true] false false).push
  else if c = 91 then (containerAux rest [false] false false).push
  else if c = 34 then (stringAux rest false).push
  else if c = 116 then (litAux [114, 117, 101] rest).push
  else if c = 102 then (litAux [97, 108, 115, 101] rest).push
  else if c = 110 then (litAux [117, 108, 108] rest).push
  else if c = 45 then (numAux rest NumPhase.neg).push
  else if c = 48 then (numAux rest NumPhase.zero).push
  else if 49 ≤ c ∧ c ≤ 57 then (numAux rest NumPhase.intg).push
  else AuxRes.bad

/-- Outcome of one `Decode` into a `json.RawMessage`: `eofOnly` is
`io.EOF` (nothing but whitespace left), `ok doc rest` yields the raw
value bytes and the unconsumed tail, `needMore` is
`io.ErrUnexpectedEOF`, `bad` a syntax error. -/
inductive ScanResult where
  | eofOnly
  | ok (doc rest : List Nat)
  | needMore
  | bad
  deriving Repr, DecidableEq

/-- One `dec.Decode(&doc)` over the buffer. -/
def scanOne (bs : List Nat) : ScanResult :=
  match dropWS bs with
  | [] => ScanResult.eofOnly
  | c :: rest =>
    match scanCore c rest with
    | AuxRes.upto n =>
      ScanResult.ok ((c :: rest).take n) ((c :: rest).drop n)
    | AuxRes.more => ScanResult.needMore
    | AuxRes.bad => ScanResult.bad

/-- Outcome of one `streamJSONToQueue` pass over the buffer. -/
inductive ChunkStatus where
  | ok
  | needMore
  | invalid
  | tooLarge (itemIdx : Nat)
  deriving Repr, DecidableEq

/-- Fuel-indexed decode loop of `streamJSONToQueue` (batch.go lines
300-330), document emission only (the uploader interaction batches the
emitted sequence and does not influence it): repeatedly decode one
document; `io.EOF` ends the pass with the buffer drained (trailing
whitespace is consumed by the decoder and dropped); on
`io.ErrUnexpectedEOF` the buffer is reset to exactly the undecoded tail
and `needMore` is signalled; a document longer than `_messageSizeLimit`
aborts with its item index; a decoded document is emitted and the index
advanced.  The fuel exceeds the buffer length, so it never runs out. -/
def splitDocsF : Nat → Nat → List Nat → List (List Nat) × List Nat × ChunkStatus
  | 0, _, buf => ([], buf, ChunkStatus.needMore)
  | fuel + 1, idx, buf =>
    match scanOne buf with
    | ScanResult.eofOnly => ([], [], ChunkStatus.ok)
    | ScanResult.needMore => ([], buf, ChunkStatus.needMore)
    | ScanResult.bad => ([], buf, ChunkStatus.invalid)
    | ScanResult.ok doc rest =>
      if doc.length > messageSizeLimit then ([], buf, ChunkStatus.tooLarge idx)
      else
        let r := splitDocsF fuel (idx + 1) rest
        (doc :: r.1, r.2.1, r.2.2)

/-- One `streamJSONToQueue` pass: emitted documents, remaining buffer,
status.  `idx` is the running item index within the file. -/
def splitDocs (idx : Nat) (buf : List Nat) :
    List (List Nat) × List Nat × ChunkStatus :=
  splitDocsF (buf.length + 1) idx buf

deriving instance DecidableEq for Except

/-- Errors of the per-file chunk loop. -/
inductive SplitErr where
  | unexpectedEOF
  | invalid
  | tooLarge (itemIdx : Nat)
  deriving Repr, DecidableEq

/-- The per-chunk callback loop of `enqueueS3FileContents` (batch.go
lines 261-273) for one file, document emission only: each chunk is
appended to the carried buffer and one `streamJSONToQueue` pass is run;
`io.ErrUnexpectedEOF` is swallowed unless the chunk is the file's last
chunk, in which case it aborts the file; other errors abort
immediately. -/
def runChunks (idx : Nat) (buf : List Nat) :
    List (List Nat) → Except SplitErr (List (List Nat))
  | [] => Except.ok []
  | c :: cs =>
    let r := splitDocs idx (buf ++ c)
    match r.2.2 with
    | ChunkStatus.ok =>
      (runChunks (idx + r.1.length) r.2.1 cs).map (fun ds => r.1 ++ ds)
    | ChunkStatus.needMore =>
      if cs.isEmpty then Except.error SplitErr.unexpectedEOF
      else (runChunks (idx + r.1.length) r.2.1 cs).map (fun ds => r.1 ++ ds)
    | ChunkStatus.invalid => Except.error SplitErr.invalid
    | ChunkStatus.tooLarge i => Except.error (SplitErr.tooLarge i)

lemma push_upto (r : AuxRes) (n : Nat) (h : r.push = AuxRes.upto n) :
    ∃ m, r = AuxRes.upto m ∧ n = m + 1 := by
  cases r with
  | upto m =>
    refine ⟨m, rfl, ?_⟩
    simpa [AuxRes.push] using h.symm
  | more => simp [AuxRes.push] at h
  | bad => simp [AuxRes.push] at h

lemma scanCore_upto_pos (c : Nat) (rest : List Nat) (n : Nat)
    (h : scanCore c rest = AuxRes.upto n) : 1 ≤ n := by
  unfold scanCore at h
  split_ifs at h <;>
    first
    | (obtain ⟨m, -, hn⟩ := push_upto _ _ h; omega)
    | cases h

lemma scanOne_rest_lt (bs doc rest : List Nat)
    (h : scanOne bs = ScanResult.ok doc rest) : rest.length < bs.length := by
  unfold scanOne at h
  cases hd : dropWS bs with
  | nil => rw [hd] at h; cases h
  | cons c r =>
    simp only [hd] at h
    cases hc : scanCore c r with
    | upto n =>
      rw [hc] at h
      injection h with h1 h2
      have hn := scanCore_upto_pos c r n hc
      have hlen : (dropWS bs).length ≤ bs.length :=
        List.Sublist.length_le (List.dropWhile_sublist isWSByte)
      rw [hd] at hlen
      subst h2
      rw [List.length_drop]
      simp only [List.length_cons] at hlen ⊢
      omega
    | more => rw [hc] at h; cases h
    | bad => rw [hc] at h; cases h

lemma splitDocsF_fuel : ∀ (f g idx : Nat) (buf : List Nat),
    buf.length < f → buf.length < g →
    splitDocsF f idx buf = splitDocsF g idx buf := by
  intro f
  induction f with
  | zero => intro g idx buf hf _; omega
  | succ f ih =>
    intro g idx buf hf hg
    cases g with
    | zero => omega
    | succ g =>
      simp only [splitDocsF]
      cases hs : scanOne buf with
      | eofOnly => rfl
      | needMore => rfl
      | bad => rfl
      | ok doc rest =>
        by_cases hl : doc.length > messageSizeLimit
        · simp [hl]
        · simp only [hl, if_false, ite_false]
          have hrest := scanOne_rest_lt buf doc rest hs
          rw [ih g (idx + 1) rest (by omega) (by omega)]

lemma splitDocs_eof (idx : Nat) (buf : List Nat) (h : scanOne buf = ScanResult.eofOnly) :
    splitDocs idx buf = ([], [], ChunkStatus.ok) := by
  unfold splitDocs
  simp only [splitDocsF, h]

lemma splitDocs_needMore (idx : Nat) (buf : List Nat)
    (h : scanOne buf = ScanResult.needMore) :
    splitDocs idx buf = ([], buf, ChunkStatus.needMore) := by
  unfold splitDocs
  simp only [splitDocsF, h]

lemma splitDocs_invalid (idx : Nat) (buf : List Nat) (h : scanOne buf = ScanResult.bad) :
    splitDocs idx buf = ([], buf, ChunkStatus.invalid) := by
  unfold splitDocs
  simp only [splitDocsF, h]

lemma splitDocs_tooLarge (idx : Nat) (buf doc rest : List Nat)
    (h : scanOne buf = ScanResult.ok doc rest) (hl : doc.length > messageSizeLimit) :
    splitDocs idx buf = ([], buf, ChunkStatus.tooLarge idx) := by
  unfold splitDocs
  simp only [splitDocsF, h, hl, if_true, ite_true]

lemma splitDocs_ok (idx : Nat) (buf doc rest : List Nat)
    (h : scanOne buf = ScanResult.ok doc rest) (hl : ¬ doc.length > messageSizeLimit) :
    splitDocs idx buf =
      (doc :: (splitDocs (idx + 1) rest).1,
        (splitDocs (idx + 1) rest).2.1, (splitDocs (idx + 1) rest).2.2) := by
  unfold splitDocs
  conv_lhs => rw [splitDocsF]
  simp only [h]
  rw [if_neg hl, splitDocsF_fuel buf.length (rest.length + 1) (idx + 1) rest
    (scanOne_rest_lt buf doc rest h) (by omega)]

lemma stringAux_le : ∀ (bs : List Nat) (esc : Bool) (n : Nat),
    stringAux bs esc = AuxRes.upto n → n ≤ bs.length := by
  intro bs
  induction bs with
  | nil => intro esc n h; cases h
  | cons c rest ih =>
    intro esc n h
    simp only [stringAux] at h
    simp only [List.length_cons]
    split_ifs at h <;>
      first
      | (obtain ⟨m, hm, hn⟩ := push_upto _ _ h
         have := ih _ _ hm
         omega)
      | (injection h with h1; omega)

lemma containerAux_le : ∀ (bs : List Nat) (stack : List Bool) (inStr esc : Bool) (n : Nat),
    containerAux bs stack inStr esc = AuxRes.upto n → n ≤ bs.length := by
  intro bs
  induction bs with
  | nil => intro _ _ _ _ h; cases h
  | cons c rest ih =>
    intro stack inStr esc n h
    simp only [containerAux] at h
    simp only [List.length_cons]
    split_ifs at h <;>
      first
      | (obtain ⟨m, hm, hn⟩ := push_upto _ _ h
         have := ih _ _ _ _ hm
         omega)
      | (rcases stack with _ | ⟨b, s⟩
         · simp at h
         · cases b <;> simp only [] at h <;>
             first
             | simp at h
             | (rcases s with _ | ⟨b2, s2⟩
                · injection h with h1; omega
                · obtain ⟨m, hm, hn⟩ := push_upto _ _ h
                  have := ih _ _ _ _ hm
                  omega))

lemma litAux_le : ∀ (es bs : List Nat) (n : Nat),
    litAux es bs = AuxRes.upto n → n ≤ bs.length := by
  intro es
  induction es with
  | nil =>
    intro bs n h
    injection h with h1
    omega
  | cons e es ih =>
    intro bs n h
    cases bs with
    | nil => cases h
    | cons c cs =>
      simp only [litAux] at h
      simp only [List.length_cons]
      split_ifs at h
      obtain ⟨m, hm, hn⟩ := push_upto _ _ h
      have := ih _ _ hm
      omega

lemma numAux_le : ∀ (bs : List Nat) (p : NumPhase) (n : Nat),
    numAux bs p = AuxRes.upto n → n ≤ bs.length := by
  intro bs
  induction bs with
  | nil =>
    intro p n h
    simp only [numAux] at h
    split_ifs at h
    injection h with h1
    omega
  | cons c rest ih =>
    intro p n h
    simp only [numAux] at h
    simp only [List.length_cons]
    cases hs : numStep p c with
    | some p' =>
      rw [hs] at h
      obtain ⟨m, hm, hn⟩ := push_upto _ _ h
      have := ih _ _ hm
      omega
    | none =>
      rw [hs] at h
      split_ifs at h
      injection h with h1
      omega

lemma stringAux_append : ∀ (bs : List Nat) (esc : Bool) (n : Nat) (m2 : List Nat),
    stringAux bs esc = AuxRes.upto n → stringAux (bs ++ m2) esc = AuxRes.upto n := by
  intro bs
  induction bs with
  | nil => intro esc n m2 h; cases h
  | cons c rest ih =>
    intro esc n m2 h
    simp only [List.cons_append, List.append_eq, stringAux] at h ⊢
    split_ifs at h ⊢ <;>
      first
      | (obtain ⟨m, hm, hn⟩ := push_upto _ _ h
         rw [ih _ _ _ hm]
         simp [AuxRes.push, hn])
      | exact h

lemma containerAux_append :
    ∀ (bs : List Nat) (stack : List Bool) (inStr esc : Bool) (n : Nat) (m2 : List Nat),
    containerAux bs stack inStr esc = AuxRes.upto n →
    containerAux (bs ++ m2) stack inStr esc = AuxRes.upto n := by
  intro bs
  induction bs with
  | nil => intro _ _ _ _ _ h; cases h
  | cons c rest ih =>
    intro stack inStr esc n m2 h
    simp only [List.cons_append, List.append_eq, containerAux] at h ⊢
    split_ifs at h ⊢ <;>
      first
      | (obtain ⟨m, hm, hn⟩ := push_upto _ _ h
         rw [ih _ _ _ _ _ hm]
         simp [AuxRes.push, hn])
      | (rcases stack with _ | ⟨b, s⟩
         · simp at h
         · cases b <;> (try simp only [] at h ⊢) <;>
             first
             | simp at h
             | (rcases s with _ | ⟨b2, s2⟩
                · exact h
                · obtain ⟨m, hm, hn⟩ := push_upto _ _ h
                  rw [ih _ _ _ _ _ hm]
                  simp [AuxRes.push, hn]))

lemma litAux_append : ∀ (es bs : List Nat) (n : Nat) (m2 : List Nat),
    litAux es bs = AuxRes.upto n → litAux es (bs ++ m2) = AuxRes.upto n := by
  intro es
  induction es with
  | nil =>
    intro bs n m2 h
    injection h with h1
    subst h1
    rfl
  | cons e es ih =>
    intro bs n m2 h
    cases bs with
    | nil => cases h
    | cons c cs =>
      simp only [List.cons_append, List.append_eq, litAux] at h ⊢
      split_ifs at h ⊢
      obtain ⟨m, hm, hn⟩ := push_upto _ _ h
      rw [ih _ _ _ hm]
      simp [AuxRes.push, hn]

lemma stringAux_take : ∀ (bs : List Nat) (esc : Bool) (n k : Nat),
    stringAux bs esc = AuxRes.upto n → k < n →
    stringAux (bs.take k) esc = AuxRes.more := by
  intro bs
  induction bs with
  | nil => intro esc n k h; cases h
  | cons c rest ih =>
    intro esc n k h hk
    cases k with
    | zero => rfl
    | succ j =>
      rw [List.take_succ_cons]
      simp only [stringAux] at h ⊢
      split_ifs at h ⊢ <;>
        first
        | (obtain ⟨m, hm, hn⟩ := push_upto _ _ h
           rw [ih _ _ _ hm (by omega)]
           rfl)
        | (injection h with h1; omega)

lemma containerAux_take :
    ∀ (bs : List Nat) (stack : List Bool) (inStr esc : Bool) (n k : Nat),
    containerAux bs stack inStr esc = AuxRes.upto n → k < n →
    containerAux (bs.take k) stack inStr esc = AuxRes.more := by
  intro bs
  induction bs with
  | nil => intro _ _ _ _ _ h; cases h
  | cons c rest ih =>
    intro stack inStr esc n k h hk
    cases k with
    | zero => rfl
    | succ j =>
      rw [List.take_succ_cons]
      simp only [containerAux] at h ⊢
      split_ifs at h ⊢ <;>
        first
        | (obtain ⟨m, hm, hn⟩ := push_upto _ _ h
           rw [ih _ _ _ _ _ hm (by omega)]
           rfl)
        | (rcases stack with _ | ⟨b, s⟩
           · simp at h
           · cases b <;> (try simp only [] at h ⊢) <;>
               first
               | simp at h
               | (injection h with h1; omega)
               | (rcases s with _ | ⟨b2, s2⟩
                  · injection h with h1; omega
                  · obtain ⟨m, hm, hn⟩ := push_upto _ _ h
                    rw [ih _ _ _ _ _ hm (by omega)]
                    rfl))

lemma litAux_take : ∀ (es bs : List Nat) (n k : Nat),
    litAux es bs = AuxRes.upto n → k < n →
    litAux es (bs.take k) = AuxRes.more := by
  intro es
  induction es with
  | nil =>
    intro bs n k h hk
    injection h with h1
    omega
  | cons e es ih =>
    intro bs n k h hk
    cases bs with
    | nil => cases h
    | cons c cs =>
      cases k with
      | zero =>
        simp only [List.take_zero]
        rfl
      | succ j =>
        rw [List.take_succ_cons]
        simp only [litAux] at h ⊢
        split_ifs at h ⊢
        obtain ⟨m, hm, hn⟩ := push_upto _ _ h
        rw [ih _ _ _ hm (by omega)]
        rfl

/-- First bytes of the self-delimiting (content-delimited) value kinds:
objects, arrays, strings and the three literals.  A value starting with
one of these ends at a position determined by its own bytes, never by
the end of the buffer — unlike a number, whose end can be forced by the
buffer running out. -/
def safeHeadByte (c : Nat) : Bool :=
  c = 123 ∨ c = 91 ∨ c = 34 ∨ c = 116 ∨ c = 102 ∨ c = 110

lemma safeHead_not_ws (c : Nat) (h : safeHeadByte c = true) : isWSByte c = false := by
  unfold safeHeadByte at h
  unfold isWSByte
  simp only [decide_eq_true_eq, Bool.or_eq_true] at h
  rcases h with h | h | h | h | h | h <;> subst h <;> rfl

lemma scanCore_le (c : Nat) (rest : List Nat) (n : Nat)
    (h : scanCore c rest = AuxRes.upto n) : n ≤ rest.length + 1 := by
  unfold scanCore at h
  split_ifs at h <;>
    (obtain ⟨m, hm, hn⟩ := push_upto _ _ h
     first
     | (have hb := containerAux_le _ _ _ _ _ hm; omega)
     | (have hb := stringAux_le _ _ _ hm; omega)
     | (have hb := litAux_le _ _ _ hm; omega)
     | (have hb := numAux_le _ _ _ hm; omega))

lemma scanCore_append (c : Nat) (rest m2 : List Nat) (n : Nat)
    (hc : safeHeadByte c = true) (h : scanCore c rest = AuxRes.upto n) :
    scanCore c (rest ++ m2) = AuxRes.upto n := by
  unfold safeHeadByte at hc
  simp only [decide_eq_true_eq, Bool.or_eq_true] at hc
  unfold scanCore at h ⊢
  rcases hc with h1 | h1 | h1 | h1 | h1 | h1 <;> subst h1 <;>
    simp only [reduceIte] at h ⊢ <;>
    (obtain ⟨m, hm, hn⟩ := push_upto _ _ h
     subst hn
     first
     | (rw [containerAux_append _ _ _ _ _ _ hm]; rfl)
     | (rw [stringAux_append _ _ _ _ hm]; rfl)
     | (rw [litAux_append _ _ _ _ hm]; rfl))

lemma scanCore_take (c : Nat) (rest : List Nat) (n k : Nat)
    (hc : safeHeadByte c = true) (h : scanCore c rest = AuxRes.upto n)
    (hk : k < n - 1) : scanCore c (rest.take k) = AuxRes.more := by
  unfold safeHeadByte at hc
  simp only [decide_eq_true_eq, Bool.or_eq_true] at hc
  unfold scanCore at h ⊢
  rcases hc with h1 | h1 | h1 | h1 | h1 | h1 <;> subst h1 <;>
    simp only [reduceIte] at h ⊢ <;>
    (obtain ⟨m, hm, hn⟩ := push_upto _ _ h
     first
     | (rw [containerAux_take _ _ _ _ _ _ hm (by omega)]; rfl)
     | (rw [stringAux_take _ _ _ _ hm (by omega)]; rfl)
     | (rw [litAux_take _ _ _ _ hm (by omega)]; rfl))

/-- A document that is chunking-safe: it starts with a self-delimiting
byte and scans, on its own, to exactly itself with nothing left. -/
def ChunkSafeDoc (d : List Nat) : Prop :=
  d.head?.any safeHeadByte = true ∧ scanOne d = ScanResult.ok d []

instance (d : List Nat) : Decidable (ChunkSafeDoc d) := by
  unfold ChunkSafeDoc
  infer_instance

lemma chunkSafe_shape (d : List Nat) (h : ChunkSafeDoc d) :
    ∃ c rest, d = c :: rest ∧ safeHeadByte c = true ∧
      scanCore c rest = AuxRes.upto d.length := by
  obtain ⟨hhead, hscan⟩ := h
  cases d with
  | nil => simp [Option.any] at hhead
  | cons c rest =>
    simp only [List.head?, Option.any] at hhead
    refine ⟨c, rest, rfl, hhead, ?_⟩
    unfold scanOne at hscan
    have hdw : dropWS (c :: rest) = c :: rest := by
      unfold dropWS
      rw [List.dropWhile_cons_of_neg]
      simp [safeHead_not_ws c hhead]
    simp only [hdw] at hscan
    cases hcore : scanCore c rest with
    | upto n =>
      simp only [hcore] at hscan
      injection hscan with hdoc hrest
      have hle := scanCore_le c rest n hcore
      have hge : (c :: rest).length ≤ n := List.drop_eq_nil_iff.mp hrest
      have hn : n = (c :: rest).length := by
        simp only [List.length_cons] at hge hle ⊢
        omega
      rw [hn]
    | more =>
      simp only [hcore] at hscan
      exact absurd hscan (by simp)
    | bad =>
      simp only [hcore] at hscan
      exact absurd hscan (by simp)

lemma scanOne_extend (d m : List Nat) (h : ChunkSafeDoc d) :
    scanOne (d ++ m) = ScanResult.ok d m := by
  obtain ⟨c, rest, rfl, hc, hcore⟩ := chunkSafe_shape d h
  have hdw : dropWS (c :: (rest ++ m)) = c :: (rest ++ m) := by
    unfold dropWS
    rw [List.dropWhile_cons_of_neg]
    simp [safeHead_not_ws c hc]
  unfold scanOne
  have hsc := scanCore_append c rest m _ hc hcore
  simp only [List.cons_append, hdw, hsc]
  have ht : (c :: (rest ++ m)).take (c :: rest).length = c :: rest := by
    have := List.take_left (c :: rest) m
    simpa using this
  have hd : (c :: (rest ++ m)).drop (c :: rest).length = m := by
    have := List.drop_left (c :: rest) m
    simpa using this
  rw [ht, hd]

lemma scanOne_prefix_needMore (d : List Nat) (h : ChunkSafeDoc d) (k : Nat)
    (h0 : 0 < k) (hk : k < d.length) : scanOne (d.take k) = ScanResult.needMore := by
  obtain ⟨c, rest, rfl, hc, hcore⟩ := chunkSafe_shape d h
  cases k with
  | zero => omega
  | succ j =>
    rw [List.take_succ_cons]
    have hdw : dropWS (c :: rest.take j) = c :: rest.take j := by
      unfold dropWS
      rw [List.dropWhile_cons_of_neg]
      simp [safeHead_not_ws c hc]
    have hkk : j < (c :: rest).length - 1 := by
      simp only [List.length_cons] at hk ⊢
      omega
    have hsc := scanCore_take c rest _ j hc hcore hkk
    unfold scanOne
    simp only [hdw, hsc]

lemma scanOne_ok_decomp (bs doc rest : List Nat)
    (h : scanOne bs = ScanResult.ok doc rest) :
    bs = bs.takeWhile isWSByte ++ (doc ++ rest) ∧
      (∀ b ∈ bs.takeWhile isWSByte, isWSByte b = true) := by
  constructor
  · unfold scanOne at h
    cases hd : dropWS bs with
    | nil => rw [hd] at h; cases h
    | cons c r =>
      simp only [hd] at h
      cases hcore : scanCore c r with
      | upto n =>
        rw [hcore] at h
        injection h with hdoc hrest
        rw [← hdoc, ← hrest, List.take_append_drop]
        have := List.takeWhile_append_dropWhile isWSByte bs
        unfold dropWS at hd
        rw [hd] at this
        exact this.symm
      | more => rw [hcore] at h; cases h
      | bad => rw [hcore] at h; cases h
  · intro b hb
    exact List.mem_takeWhile_imp hb

/-- A chunking-safe document that also fits the payload ceiling. -/
def GoodDoc (d : List Nat) : Prop :=
  ChunkSafeDoc d ∧ d.length ≤ messageSizeLimit

instance (d : List Nat) : Decidable (GoodDoc d) := by
  unfold GoodDoc
  infer_instance

lemma chunkSafe_ne_nil (d : List Nat) (h : ChunkSafeDoc d) : d ≠ [] := by
  obtain ⟨c, rest, rfl, -, -⟩ := chunkSafe_shape d h
  simp

lemma splitDocs_flatten :
    ∀ (ds : List (List Nat)) (idx : Nat), (∀ d ∈ ds, GoodDoc d) →
    splitDocs idx ds.flatten = (ds, [], ChunkStatus.ok) := by
  intro ds
  induction ds with
  | nil =>
    intro idx _
    exact splitDocs_eof idx [] rfl
  | cons d ds ih =>
    intro idx hgood
    have hd : GoodDoc d := hgood d (by simp)
    have hscan : scanOne (d ++ ds.flatten) = ScanResult.ok d ds.flatten :=
      scanOne_extend d ds.flatten hd.1
    rw [List.flatten_cons,
      splitDocs_ok idx (d ++ ds.flatten) d ds.flatten hscan
        (by have := hd.2; omega),
      ih (idx + 1) (fun x hx => hgood x (by simp [hx]))]

lemma splitDocs_flatten_pending :
    ∀ (ds : List (List Nat)) (p : List Nat) (idx : Nat), (∀ d ∈ ds, GoodDoc d) →
    scanOne p = ScanResult.needMore →
    splitDocs idx (ds.flatten ++ p) = (ds, p, ChunkStatus.needMore) := by
  intro ds
  induction ds with
  | nil =>
    intro p idx _ hp
    simp only [List.flatten_nil, List.nil_append]
    exact splitDocs_needMore idx p hp
  | cons d ds ih =>
    intro p idx hgood hp
    have hd : GoodDoc d := hgood d (by simp)
    have hscan : scanOne (d ++ (ds.flatten ++ p)) =
        ScanResult.ok d (ds.flatten ++ p) :=
      scanOne_extend d (ds.flatten ++ p) hd.1
    rw [List.flatten_cons, List.append_assoc,
      splitDocs_ok idx _ d (ds.flatten ++ p) hscan (by have := hd.2; omega),
      ih p (idx + 1) (fun x hx => hgood x (by simp [hx])) hp]

/-- The carried buffer between chunks: empty, or a proper non-empty
prefix of the next expected document. -/
def PendingPrefix (p : List Nat) (ds : List (List Nat)) : Prop :=
  p = [] ∨ ∃ d ds' k, ds = d :: ds' ∧ 0 < k ∧ k < d.length ∧ p = d.take k

lemma prefix_split :
    ∀ (ds : List (List Nat)) (buf rest : List Nat), (∀ d ∈ ds, GoodDoc d) →
    buf ++ rest = ds.flatten →
    ∃ ds₁ ds₂ p, ds = ds₁ ++ ds₂ ∧ buf = ds₁.flatten ++ p ∧
      PendingPrefix p ds₂ ∧ p ++ rest = ds₂.flatten := by
  intro ds
  induction ds with
  | nil =>
    intro buf rest _ h
    simp only [List.flatten_nil] at h
    obtain ⟨hb, hr⟩ := List.append_eq_nil.mp h
    exact ⟨[], [], [], rfl, by simp [hb], Or.inl rfl, by simp [hb, hr]⟩
  | cons d ds ih =>
    intro buf rest hgood h
    rcases lt_or_le buf.length d.length with hlt | hle
    · -- buf is a (possibly empty) proper prefix of d
      refine ⟨[], d :: ds, buf, rfl, by simp, ?_, h⟩
      by_cases hbnil : buf = []
      · exact Or.inl hbnil
      · right
        have hbuf : buf = d.take buf.length := by
          have h1 : (buf ++ rest).take buf.length = buf.take buf.length :=
            List.take_append_of_le_length le_rfl
          rw [h, List.flatten_cons, List.take_append_of_le_length (le_of_lt hlt),
            List.take_length] at h1
          exact h1.symm
        exact ⟨d, ds, buf.length, rfl, List.length_pos.mpr hbnil, hlt, hbuf⟩
    · -- buf = d ++ buf'
      have hbuf : buf = d ++ buf.drop d.length := by
        have h1 : d = buf.take d.length := by
          have h2 : (buf ++ rest).take d.length = buf.take d.length :=
            List.take_append_of_le_length hle
          rw [h, List.flatten_cons,
            List.take_append_of_le_length le_rfl, List.take_length] at h2
          exact h2
        conv_lhs => rw [← List.take_append_drop d.length buf]
        rw [← h1]
      have hrest : buf.drop d.length ++ rest = ds.flatten := by
        have h2 : (d ++ buf.drop d.length) ++ rest = d ++ ds.flatten := by
          rw [← hbuf, h, List.flatten_cons]
        rw [List.append_assoc] at h2
        exact List.append_cancel_left h2
      obtain ⟨ds₁, ds₂, p, hds, hb, hp, hpr⟩ :=
        ih (buf.drop d.length) rest (fun x hx => hgood x (by simp [hx])) hrest
      refine ⟨d :: ds₁, ds₂, p, by rw [hds]; rfl, ?_, hp, hpr⟩
      rw [List.flatten_cons, List.append_assoc, ← hb]
      exact hbuf

lemma runChunks_complete :
    ∀ (cs ds : List (List Nat)) (p : List Nat) (idx : Nat),
    (∀ d ∈ ds, GoodDoc d) → PendingPrefix p ds →
    p ++ cs.flatten = ds.flatten → (cs = [] → p = []) →
    runChunks idx p cs = Except.ok ds := by
  intro cs
  induction cs with
  | nil =>
    intro ds p idx hgood _ hflat hnil
    rw [hnil rfl] at hflat
    simp only [List.flatten_nil, List.append_nil] at hflat
    have hds : ds = [] := by
      cases ds with
      | nil => rfl
      | cons d ds' =>
        exfalso
        have hd : GoodDoc d := hgood d (by simp)
        have := chunkSafe_ne_nil d hd.1
        have hlen := congrArg List.length hflat
        simp [List.length_flatten] at hlen
        have : d.length = 0 := by omega
        exact (chunkSafe_ne_nil d hd.1) (List.length_eq_zero.mp this)
    rw [hds]
    rfl
  | cons c cs ih =>
    intro ds p idx hgood hpend hflat hnil
    have hbufrest : (p ++ c) ++ cs.flatten = ds.flatten := by
      rw [List.append_assoc, ← List.flatten_cons]
      exact hflat
    obtain ⟨ds₁, ds₂, p', hds, hb, hp', hpr⟩ :=
      prefix_split ds (p ++ c) cs.flatten hgood hbufrest
    have hgood₂ : ∀ d ∈ ds₂, GoodDoc d := fun d hd =>
      hgood d (by rw [hds]; exact List.mem_append_right _ hd)
    have hgood₁ : ∀ d ∈ ds₁, GoodDoc d := fun d hd =>
      hgood d (by rw [hds]; exact List.mem_append_left _ hd)
    rcases hp' with hp'nil | ⟨d₂, ds₂', k, hds₂, hk0, hkd, hptake⟩
    · -- the chunk boundary falls exactly between documents
      subst hp'nil
      have hsplit : splitDocs idx (p ++ c) = (ds₁, [], ChunkStatus.ok) := by
        rw [hb, List.append_nil]
        exact splitDocs_flatten ds₁ idx hgood₁
      have hrec : runChunks (idx + ds₁.length) [] cs = Except.ok ds₂ := by
        apply ih ds₂ [] (idx + ds₁.length) hgood₂ (Or.inl rfl)
        · simpa using hpr
        · intro _; rfl
      simp only [runChunks, hsplit, hrec]
      rw [hds]
      rfl
    · -- the chunk ends inside document d₂
      have hd₂ : GoodDoc d₂ := hgood₂ d₂ (by rw [hds₂]; simp)
      have hpm : scanOne p' = ScanResult.needMore := by
        rw [hptake]
        exact scanOne_prefix_needMore d₂ hd₂.1 k hk0 hkd
      have hsplit : splitDocs idx (p ++ c) = (ds₁, p', ChunkStatus.needMore) := by
        rw [hb]
        exact splitDocs_flatten_pending ds₁ p' idx hgood₁ hpm
      have hcs : cs ≠ [] := by
        intro hcs
        subst hcs
        simp only [List.flatten_nil, List.append_nil] at hpr
        have := congrArg List.length hpr
        rw [hptake, hds₂] at this
        simp [List.length_flatten, List.length_take] at this
        omega
      have hrec : runChunks (idx + ds₁.length) p' cs = Except.ok ds₂ := by
        apply ih ds₂ p' (idx + ds₁.length) hgood₂
        · exact Or.inr ⟨d₂, ds₂', k, hds₂, hk0, hkd, hptake⟩
        · exact hpr
        · intro hcs'; exact absurd hcs' hcs
      simp only [runChunks, hsplit]
      rw [if_neg (by simpa [List.isEmpty_iff] using hcs), hrec]
      rw [hds]
      rfl

/-- C5 (counterexample): the claim "the emitted document sequence is
independent of the chunk boundaries" is false as stated.  The stream
`"12"` is a concatenation of complete JSON documents (the single number
document `12`: it scans to exactly itself).  Delivered as one chunk it
yields the one document `12`; delivered as the chunks `"1"`, `"2"` it
yields the two documents `1` and `2`, because the per-chunk decoder
eagerly completes a trailing number at the end of the buffer. -/
theorem c5_number_chunking_dependent :
    scanOne [49, 50] = ScanResult.ok [49, 50] [] ∧
    runChunks 0 [] [[49, 50]] = Except.ok [[49, 50]] ∧
    runChunks 0 [] [[49], [50]] = Except.ok [[49], [50]] ∧
    runChunks 0 [] [[49], [50]] ≠ runChunks 0 [] [[49, 50]] := by
  refine ⟨by decide, by decide, by decide, by decide⟩

/-- C5 (amended): for every byte stream that is a concatenation of
complete JSON documents each of which is self-delimiting — an object,
array, string, or one of the literals `true`/`false`/`null`, i.e. not a
bare number — and each within the payload ceiling, the splitter yields
the same document sequence, namely exactly those documents, for every
partition of the stream into successive chunks (one byte at a time, one
single chunk, or any other chunking). -/
theorem c5_chunking_independent (ds css : List (List Nat))
    (hds : ∀ d ∈ ds, GoodDoc d) (hflat : css.flatten = ds.flatten) :
    runChunks 0 [] css = Except.ok ds := by
  apply runChunks_complete css ds [] 0 hds (Or.inl rfl)
  · simpa using hflat
  · intro _
    rfl

/-- Witness for the amended C5: the document `{}` split into the chunks
`"{"` and `"}"` is reassembled into the single document `{}`. -/
theorem c5_chunking_independent_witness :
    runChunks 0 [] [[123], [125]] = Except.ok [[123, 125]] :=
  c5_chunking_independent [[123, 125]] [[123], [125]] (by decide) (by decide)

/-- Full accounting of a buffer by the splitter: the buffer is the
emitted documents in order, each possibly preceded by whitespace,
followed by the retained tail. -/
inductive Reassembles : List Nat → List (List Nat) → List Nat → Prop where
  | nil (rest : List Nat) : Reassembles rest [] rest
  | cons (ws doc buf rest : List Nat) (docs : List (List Nat)) :
      (∀ b ∈ ws, isWSByte b = true) → Reassembles buf docs rest →
      Reassembles (ws ++ (doc ++ buf)) (doc :: docs) rest

lemma splitDocs_needMore_inv :
    ∀ (n : Nat) (buf : List Nat) (idx : Nat), buf.length ≤ n →
    (splitDocs idx buf).2.2 = ChunkStatus.needMore →
    Reassembles buf (splitDocs idx buf).1 (splitDocs idx buf).2.1 ∧
      scanOne (splitDocs idx buf).2.1 = ScanResult.needMore := by
  intro n
  induction n with
  | zero =>
    intro buf idx hlen h
    have hbuf : buf = [] := List.length_eq_zero.mp (Nat.le_zero.mp hlen)
    subst hbuf
    rw [splitDocs_eof idx [] rfl] at h
    cases h
  | succ n ih =>
    intro buf idx hlen h
    cases hs : scanOne buf with
    | eofOnly => rw [splitDocs_eof idx buf hs] at h; cases h
    | needMore =>
      rw [splitDocs_needMore idx buf hs] at h ⊢
      exact ⟨Reassembles.nil buf, hs⟩
    | bad => rw [splitDocs_invalid idx buf hs] at h; cases h
    | ok doc rest =>
      by_cases hl : doc.length > messageSizeLimit
      · rw [splitDocs_tooLarge idx buf doc rest hs hl] at h; cases h
      · have hstep := splitDocs_ok idx buf doc rest hs hl
        rw [hstep] at h ⊢
        have hrest := scanOne_rest_lt buf doc rest hs
        obtain ⟨hre, hsc⟩ := ih rest (idx + 1) (by omega) h
        constructor
        · obtain ⟨hdecomp, hws⟩ := scanOne_ok_decomp buf doc rest hs
          rw [hdecomp]
          exact Reassembles.cons _ doc rest _ _ hws hre
        · exact hsc

/-- C6: when a `streamJSONToQueue` pass over the buffered bytes ends
mid-document (`io.ErrUnexpectedEOF`), (a) the retained buffer is exactly
the undecoded tail — the emitted documents plus the tail reassemble the
whole buffer and the tail itself is an incomplete document — and no
document is lost; (b) if more chunks follow, the chunk loop continues
without raising an error, carrying the tail; (c) if this was the file's
final chunk, the loop instead returns the malformed-input error
(`io.ErrUnexpectedEOF` propagated) rather than silently dropping the
incomplete document. -/
theorem c6_truncated_chunk (buf c : List Nat) (cs : List (List Nat)) (idx : Nat)
    (h : (splitDocs idx (buf ++ c)).2.2 = ChunkStatus.needMore) :
    (Reassembles (buf ++ c) (splitDocs idx (buf ++ c)).1
        (splitDocs idx (buf ++ c)).2.1 ∧
      scanOne (splitDocs idx (buf ++ c)).2.1 = ScanResult.needMore) ∧
    (cs ≠ [] → runChunks idx buf (c :: cs) =
      (runChunks (idx + (splitDocs idx (buf ++ c)).1.length)
          (splitDocs idx (buf ++ c)).2.1 cs).map
        (fun ds => (splitDocs idx (buf ++ c)).1 ++ ds)) ∧
    runChunks idx buf [c] = Except.error SplitErr.unexpectedEOF := by
  refine ⟨splitDocs_needMore_inv (buf ++ c).length (buf ++ c) idx le_rfl h, ?_, ?_⟩
  · intro hcs
    simp only [runChunks]
    rw [h]
    rw [if_neg (by simpa [List.isEmpty_iff] using hcs)]
  · simp only [runChunks]
    rw [h]
    rfl

/-- Witness for C6: the truncated stream `{"a"` as a lone final chunk
yields the malformed-input error; with the continuation chunk `:1}` the
loop continues and emits the completed document `{"a":1}`. -/
theorem c6_truncated_chunk_witness :
    runChunks 0 [] [[123, 34, 97, 34]] = Except.error SplitErr.unexpectedEOF ∧
    runChunks 0 [] [[123, 34, 97, 34], [58, 49, 125]] =
      Except.ok [[123, 34, 97, 34, 58, 49, 125]] := by
  constructor
  · exact (c6_truncated_chunk [] [123, 34, 97, 34] [] 0 (by decide)).2.2
  · have h2 := (c6_truncated_chunk [] [123, 34, 97, 34] [[58, 49, 125]] 0
      (by decide)).2.1 (by decide)
    rw [h2]
    decide

end Cortex
